import Mathlib

/-!
Verification of the composition and encoding protocol of the `measured`
metrics core (`src/core/src/metric/group.rs`).

The Rust core is a set of traits (`Encoding`, `MetricGroup`, `MetricEncoding`)
with generic forwarding implementations.  We embed it shallowly:

* the mutable encoding target becomes explicit state passing
  (`Enc → ... → Enc`);
* the possible shapes of the generic target parameter `E` occurring in the
  source (`a base text encoder`, `WithNamespace<E>`, `&mut E`) become the
  constructors of the inductive type `Enc`;
* the possible shapes of a metric-group tree (leaf metric, `ComposedGroup`,
  `WithNamespace<G>`, `&G`) become the constructors of the inductive type
  `Group`;
* metric names are the lazy decorator chains the source passes around
  (`impl MetricNameEncoder` values, wrapped in `WithNamespace` at each
  layer), embedded as the inductive type `Name`.

Collaborators that the claims need but that are not part of
`src/core/src/metric/group.rs` (the concrete text encoder, the name
renderer, the struct definitions of `ComposedGroup` / `WithNamespace`, and
the derive-generated leaf traversal) are modelled from the spec; each such
definition says so in its doc comment.
-/

namespace Measured

/-- Modelled from the spec: the `MetricNameEncoder` collaborator
(spec §3 "Name", §6).  A name is "an abstract capability (not a concrete
string)"; "namespacing composes by nesting name-renderers".  `Name.nsWrap`
is the `WithNamespace { namespace, inner: name }` decorator value built by
the forwarding impls in `group.rs` (lines 58-68, 70-97). -/
inductive Name where
  | base (s : String)
  | nsWrap (nsp : String) (inner : Name)
deriving DecidableEq

/-- Modelled from the spec: rendering a `Name` to text.  Spec §3:
"prefixes are concatenated in outer-to-inner order, each application
textually prepending, never inserting separators beyond what the prefix
itself contains"; spec §6: "Namespacing concatenates the namespace prefix
directly onto the base metric name with no separator inserted by this
core". -/
def Name.render : Name → String
  | .base s => s
  | .nsWrap p n => p ++ n.render

/-- One line of Prometheus exposition output, as an event.  Modelled from
the spec (§6 wire format): HELP lines, TYPE lines, value lines (with
rendered label key/value pairs) and the blank separator line. -/
inductive Line where
  | help (name : String) (text : String)
  | typ (name : String) (kind : String)
  | value (name : String) (labels : List (String × String)) (v : Nat)
  | blank
deriving DecidableEq

/-- Modelled from the spec: the concrete text encoder (`TextEncoder`,
an external collaborator of this core, spec §1/§6) writing a HELP line.
Spec §6: "A blank line separates each metric's block from the next", and
the worked fixture shows no leading blank line before the first block. -/
def bufWriteHelp (s : List Line) (n h : String) : List Line :=
  s ++ (if s.isEmpty then [] else [Line.blank]) ++ [Line.help n h]

/-- Modelled from the spec: the concrete text encoder writing a TYPE
line (spec §6 wire format). -/
def bufWriteType (s : List Line) (n t : String) : List Line :=
  s ++ [Line.typ n t]

/-- Modelled from the spec: the concrete text encoder writing one value
line for one label combination (spec §6 wire format). -/
def bufWriteValue (s : List Line) (n : String) (ls : List (String × String))
    (v : Nat) : List Line :=
  s ++ [Line.value n ls v]

/-- The encoding target.  The source is generic over `E: Encoding`; the
target shapes that occur in `group.rs` are a base text encoder
(spec-modelled collaborator), `WithNamespace<E> { namespace, inner }`
(field shape used at `group.rs` lines 51-54, 61-64) and an exclusively
borrowed handle `&mut E` (`group.rs` lines 13-17, 99-112). -/
inductive Enc where
  | base (buf : List Line)
  | withNs (nsp : String) (inner : Enc)
  | mutRef (inner : Enc)
deriving DecidableEq

/-- `Encoding::write_help`.
* base case: the concrete text encoder (modelled from the spec, §4.1);
* `withNs` case embeds `impl Encoding for WithNamespace<E>`
  (`group.rs` lines 58-68): forward to `inner` with the name wrapped in
  `WithNamespace { namespace, inner: name }`, help text unchanged;
* `mutRef` case embeds `impl Encoding for &mut E` (`group.rs` lines
  13-17): forward unchanged. -/
def Enc.write_help : Enc → Name → String → Enc
  | .base b, n, h => .base (bufWriteHelp b n.render h)
  | .withNs p e, n, h => .withNs p (e.write_help (.nsWrap p n) h)
  | .mutRef e, n, h => .mutRef (e.write_help n h)

/-- `MetricEncoding::write_type`.
* base case: the concrete metric encoder writes the TYPE line (modelled
  from the spec, §4.4/§6);
* `withNs` case embeds `impl MetricEncoding<WithNamespace<E>> for M ::
  write_type` (`group.rs` lines 71-79): name wrapped, forwarded to
  `enc.inner`;
* `mutRef` case embeds `impl MetricEncoding<&mut E> for M :: write_type`
  (`group.rs` lines 100-102): forward unchanged. -/
def Enc.write_type : Enc → Name → String → Enc
  | .base b, n, t => .base (bufWriteType b n.render t)
  | .withNs p e, n, t => .withNs p (e.write_type (.nsWrap p n) t)
  | .mutRef e, n, t => .mutRef (e.write_type n t)

/-- `MetricEncoding::collect_into` writing one value line for one label
combination.
* base case: the concrete metric encoder (modelled from the spec §4.4:
  "write one value line per distinct label combination");
* `withNs` case embeds `impl MetricEncoding<WithNamespace<E>> for M ::
  collect_into` (`group.rs` lines 80-96): metadata and labels passed
  unchanged, name wrapped, forwarded to `enc.inner`;
* `mutRef` case embeds `impl MetricEncoding<&mut E> for M ::
  collect_into` (`group.rs` lines 103-111): forward unchanged. -/
def Enc.write_value : Enc → Name → List (String × String) → Nat → Enc
  | .base b, n, ls, v => .base (bufWriteValue b n.render ls v)
  | .withNs p e, n, ls, v => .withNs p (e.write_value (.nsWrap p n) ls v)
  | .mutRef e, n, ls, v => .mutRef (e.write_value n ls v)

/-- A leaf metric: its base name, help text, metric type keyword and the
list of (rendered label combination, current stored value) series.
Modelled from the spec (§3 "Leaf" variant, §4.4): concrete metric storage
is an external collaborator, the core only needs its name, metadata and
per-label-combination values. -/
structure Metric where
  mname : String
  mhelp : String
  mtyp : String
  series : List (List (String × String) × Nat)
deriving DecidableEq

/-- A metric-group tree.  The shapes a group can take in `group.rs`:
a leaf metric (derive-generated `MetricGroup` impl, out of scope of the
core file), `ComposedGroup(A, B)` (an ordered pair, re-exported from
`crate::label`; fields `.0`/`.1` used at lines 40-41), `WithNamespace<G>`
(lines 45-56) and a shared reference `&G` (lines 23-31). -/
inductive Group where
  | metric (m : Metric)
  | composed (a b : Group)
  | withNs (nsp : String) (g : Group)
  | ref (g : Group)
deriving DecidableEq

/-- Unwraps the temporary `WithNamespace { namespace, inner: &mut E }`
target built by `group.rs` lines 50-55: in Rust the mutation flows back
to `enc` through the `&mut` borrow when the temporary is dropped; in the
state-passing embedding we peel the two wrappers off the returned
state. -/
def Enc.unwrapNsRef : Enc → Enc
  | .withNs _ (.mutRef e) => e
  | e => e

/-- `MetricGroup::collect_into` (`group.rs` lines 19-21).
* `ref` embeds `impl MetricGroup<E> for &G` (lines 23-31): delegate
  unchanged;
* `composed` embeds `impl MetricGroup<E> for ComposedGroup<A, B>`
  (lines 33-43): `self.0.collect_into(enc); self.1.collect_into(enc);`
* `withNs` embeds `impl MetricGroup<E> for WithNamespace<G>`
  (lines 45-56): recurse into the inner group with the target wrapped as
  `WithNamespace { namespace: self.namespace, inner: enc }` where `enc`
  is the `&mut E` handle;
* `metric` is the derive-generated leaf traversal, modelled from the
  spec (§4.2: "perform a full depth-first traversal ... writing every
  leaf's help/type/value"; §4.4: the type declaration is written once
  per name, then one value line per distinct label combination). -/
def Group.collect_into : Group → Enc → Enc
  | .ref g, e => g.collect_into e
  | .composed a b, e => b.collect_into (a.collect_into e)
  | .withNs p g, e => (g.collect_into (.withNs p (.mutRef e))).unwrapNsRef
  | .metric m, e =>
      m.series.foldl (fun acc sv => acc.write_value (.base m.mname) sv.1 sv.2)
        ((e.write_help (.base m.mname) m.mhelp).write_type (.base m.mname) m.mtyp)

/-! ### Denotation: flattening the decorator stack

`collect_into` only ever mutates the base text buffer at the core of the
target stack; the decorator spine (`withNs` / `mutRef` wrappers) is left
intact.  We make this explicit with three observers and a flattening
function, and prove the embedding equal to its flattening. -/

/-- The base text buffer at the core of a target stack. -/
def Enc.buf : Enc → List Line
  | .base b => b
  | .withNs _ e => e.buf
  | .mutRef e => e.buf

/-- The accumulated namespace of a target stack: the concatenation, in the
order the base encoder will render them, of the namespaces of the
`withNs` wrappers around the base encoder. -/
def Enc.nsAcc : Enc → String
  | .base _ => ""
  | .withNs p e => e.nsAcc ++ p
  | .mutRef e => e.nsAcc

/-- Replace the base text buffer of a target stack, keeping the spine. -/
def Enc.setBuf : Enc → List Line → Enc
  | .base _, b => .base b
  | .withNs p e, b => .withNs p (e.setBuf b)
  | .mutRef e, b => .mutRef (e.setBuf b)

@[simp] theorem Enc.buf_setBuf (e : Enc) (b : List Line) : (e.setBuf b).buf = b := by
  induction e with
  | base _ => rfl
  | withNs p e ih => simpa [Enc.setBuf, Enc.buf] using ih
  | mutRef e ih => simpa [Enc.setBuf, Enc.buf] using ih

@[simp] theorem Enc.nsAcc_setBuf (e : Enc) (b : List Line) :
    (e.setBuf b).nsAcc = e.nsAcc := by
  induction e with
  | base _ => rfl
  | withNs p e ih => simp [Enc.setBuf, Enc.nsAcc, ih]
  | mutRef e ih => simp [Enc.setBuf, Enc.nsAcc, ih]

@[simp] theorem Enc.setBuf_setBuf (e : Enc) (b b' : List Line) :
    (e.setBuf b).setBuf b' = e.setBuf b' := by
  induction e with
  | base _ => rfl
  | withNs p e ih => simp [Enc.setBuf, ih]
  | mutRef e ih => simp [Enc.setBuf, ih]

@[simp] theorem Enc.setBuf_buf (e : Enc) : e.setBuf e.buf = e := by
  induction e with
  | base _ => rfl
  | withNs p e ih => simp [Enc.setBuf, Enc.buf, ih]
  | mutRef e ih => simp [Enc.setBuf, Enc.buf, ih]

theorem str_assoc (a b c : String) : a ++ b ++ c = a ++ (b ++ c) := by
  apply String.ext
  simp [String.data_append, List.append_assoc]

@[simp] theorem str_empty_append (s : String) : "" ++ s = s := by
  apply String.ext
  simp [String.data_append]

@[simp] theorem str_append_empty (s : String) : s ++ "" = s := by
  apply String.ext
  simp [String.data_append]

/-- Flattening of `Enc.write_help`: writing through any decorator stack
writes into the base buffer, with the accumulated namespace prepended to
the rendered name and the help text unchanged. -/
theorem Enc.write_help_eq (e : Enc) (n : Name) (h : String) :
    e.write_help n h = e.setBuf (bufWriteHelp e.buf (e.nsAcc ++ n.render) h) := by
  induction e generalizing n with
  | base b => simp [Enc.write_help, Enc.setBuf, Enc.buf, Enc.nsAcc]
  | withNs p e ih =>
      simp [Enc.write_help, Enc.setBuf, Enc.buf, Enc.nsAcc, ih, Name.render, str_assoc]
  | mutRef e ih =>
      simp [Enc.write_help, Enc.setBuf, Enc.buf, Enc.nsAcc, ih]

/-- Flattening of `Enc.write_type`: the metric type keyword reaches the
base encoder unchanged; only the name is rewritten. -/
theorem Enc.write_type_eq (e : Enc) (n : Name) (t : String) :
    e.write_type n t = e.setBuf (bufWriteType e.buf (e.nsAcc ++ n.render) t) := by
  induction e generalizing n with
  | base b => simp [Enc.write_type, Enc.setBuf, Enc.buf, Enc.nsAcc]
  | withNs p e ih =>
      simp [Enc.write_type, Enc.setBuf, Enc.buf, Enc.nsAcc, ih, Name.render, str_assoc]
  | mutRef e ih =>
      simp [Enc.write_type, Enc.setBuf, Enc.buf, Enc.nsAcc, ih]

/-- Flattening of `Enc.write_value`: the label pairs and the stored value
reach the base encoder unchanged; only the name is rewritten. -/
theorem Enc.write_value_eq (e : Enc) (n : Name) (ls : List (String × String))
    (v : Nat) :
    e.write_value n ls v = e.setBuf (bufWriteValue e.buf (e.nsAcc ++ n.render) ls v) := by
  induction e generalizing n with
  | base b => simp [Enc.write_value, Enc.setBuf, Enc.buf, Enc.nsAcc]
  | withNs p e ih =>
      simp [Enc.write_value, Enc.setBuf, Enc.buf, Enc.nsAcc, ih, Name.render, str_assoc]
  | mutRef e ih =>
      simp [Enc.write_value, Enc.setBuf, Enc.buf, Enc.nsAcc, ih]

/-- The pure denotation of a collection pass: group tree, accumulated
namespace, starting buffer → final buffer. -/
def runGroup : Group → String → List Line → List Line
  | .metric m, p, s =>
      m.series.foldl (fun acc sv => bufWriteValue acc (p ++ m.mname) sv.1 sv.2)
        (bufWriteType (bufWriteHelp s (p ++ m.mname) m.mhelp) (p ++ m.mname) m.mtyp)
  | .composed a b, p, s => runGroup b p (runGroup a p s)
  | .withNs q g, p, s => runGroup g (p ++ q) s
  | .ref g, p, s => runGroup g p s

theorem foldl_write_value (series : List (List (String × String) × Nat))
    (e : Enc) (n : Name) :
    series.foldl (fun acc sv => Enc.write_value acc n sv.1 sv.2) e =
      e.setBuf (series.foldl
        (fun b sv => bufWriteValue b (e.nsAcc ++ n.render) sv.1 sv.2) e.buf) := by
  induction series generalizing e with
  | nil => simp
  | cons sv rest ih =>
      simp only [List.foldl_cons]
      rw [Enc.write_value_eq, ih]
      simp

/-- Central flattening theorem: `collect_into` through any target stack
equals the pure denotation `runGroup` applied to the stack's accumulated
namespace and base buffer, with the spine preserved. -/
theorem Group.collect_into_eq (g : Group) (e : Enc) :
    g.collect_into e = e.setBuf (runGroup g e.nsAcc e.buf) := by
  induction g generalizing e with
  | metric m =>
      simp only [Group.collect_into, runGroup]
      rw [Enc.write_help_eq, Enc.write_type_eq, foldl_write_value]
      simp [Name.render]
  | composed a b iha ihb =>
      simp only [Group.collect_into, runGroup]
      rw [iha, ihb]
      simp
  | withNs p g ih =>
      simp only [Group.collect_into, runGroup]
      rw [ih]
      simp [Enc.nsAcc, Enc.buf, Enc.setBuf, Enc.unwrapNsRef]
  | ref g ih =>
      simp only [Group.collect_into, runGroup]
      exact ih e

/-! ### Name-prefix maps -/

/-- Applies a namespace to one output line: the metric name gains the
prefix, help text, type keywords, labels, values and blank lines are
untouched. -/
def Line.prependNs (p : String) : Line → Line
  | .help n h => .help (p ++ n) h
  | .typ n t => .typ (p ++ n) t
  | .value n ls v => .value (p ++ n) ls v
  | .blank => .blank

theorem foldl_bufWriteValue (series : List (List (String × String) × Nat))
    (n : String) (s : List Line) :
    series.foldl (fun b sv => bufWriteValue b n sv.1 sv.2) s =
      s ++ series.map (fun sv => Line.value n sv.1 sv.2) := by
  induction series generalizing s with
  | nil => simp
  | cons sv rest ih => rw [List.foldl_cons, ih]; simp [bufWriteValue]

/-- Closed form of a leaf's output block. -/
theorem runGroup_metric (m : Metric) (p : String) (s : List Line) :
    runGroup (.metric m) p s =
      s ++ (if s.isEmpty then [] else [Line.blank]) ++
        Line.help (p ++ m.mname) m.mhelp :: Line.typ (p ++ m.mname) m.mtyp ::
          m.series.map (fun sv => Line.value (p ++ m.mname) sv.1 sv.2) := by
  simp [runGroup, foldl_bufWriteValue, bufWriteHelp, bufWriteType]

/-- Collecting under an extra namespace `P` is the same as collecting
without it and then prefixing every line's name with `P`. -/
theorem runGroup_map (g : Group) (P Q : String) (s : List Line) :
    runGroup g (P ++ Q) (s.map (Line.prependNs P)) =
      (runGroup g Q s).map (Line.prependNs P) := by
  induction g generalizing Q s with
  | metric m =>
      rw [runGroup_metric, runGroup_metric]
      cases s <;>
        simp [Line.prependNs, str_assoc, List.map_append, Function.comp]
  | composed a b iha ihb =>
      simp only [runGroup]
      rw [iha, ihb]
  | withNs q g ih =>
      simp only [runGroup]
      rw [str_assoc, ih]
  | ref g ih =>
      simp only [runGroup]
      exact ih Q s

/-! ### The lines appended by one collection pass -/

/-- The lines one collection pass appends, as a function of the group
tree, the accumulated namespace and a single bit of target state: whether
the buffer is currently empty (which decides blank-line separators). -/
def emitLines : Group → String → Bool → List Line
  | .metric m, p, em =>
      (if em then [] else [Line.blank]) ++
        Line.help (p ++ m.mname) m.mhelp :: Line.typ (p ++ m.mname) m.mtyp ::
          m.series.map (fun sv => Line.value (p ++ m.mname) sv.1 sv.2)
  | .composed a b, p, em =>
      emitLines a p em ++ emitLines b p (em && (emitLines a p em).isEmpty)
  | .withNs q g, p, em => emitLines g (p ++ q) em
  | .ref g, p, em => emitLines g p em

@[simp] theorem list_isEmpty_append {α : Type} (s t : List α) :
    (s ++ t).isEmpty = (s.isEmpty && t.isEmpty) := by
  cases s <;> simp [List.isEmpty]

/-- A collection pass appends `emitLines` to the starting buffer; the
appended lines depend on the buffer only through its emptiness. -/
theorem runGroup_emit (g : Group) (p : String) (s : List Line) :
    runGroup g p s = s ++ emitLines g p s.isEmpty := by
  induction g generalizing p s with
  | metric m =>
      rw [runGroup_metric]
      simp [emitLines]
  | composed a b iha ihb =>
      simp only [runGroup, emitLines]
      rw [iha, ihb]
      simp [List.append_assoc]
  | withNs q g ih =>
      simp only [runGroup, emitLines]
      exact ih (p ++ q) s
  | ref g ih =>
      simp only [runGroup, emitLines]
      exact ih p s

/-- The metric name carried by a line, if any (blank lines carry none). -/
def Line.nameOf : Line → Option String
  | .help n _ => some n
  | .typ n _ => some n
  | .value n _ _ => some n
  | .blank => none

/-- The sequence of metric names written in a list of lines. -/
def namesOf (ls : List Line) : List String :=
  ls.filterMap Line.nameOf

/-- The sequence of type declarations written in a list of lines. -/
def typDecls (ls : List Line) : List (String × String) :=
  ls.filterMap fun l => match l with
    | .typ n t => some (n, t)
    | _ => none

/-- The names a pass writes do not depend on the blank-separator state. -/
theorem namesOf_emitLines (g : Group) (p : String) (em em' : Bool) :
    namesOf (emitLines g p em) = namesOf (emitLines g p em') := by
  induction g generalizing p em em' with
  | metric m =>
      cases em <;> cases em' <;> simp [emitLines, namesOf, Line.nameOf]
  | composed a b iha ihb =>
      have ha := iha p em em'
      have hb := ihb p (em && (emitLines a p em).isEmpty)
        (em' && (emitLines a p em').isEmpty)
      simp only [namesOf] at ha hb ⊢
      simp only [emitLines, List.filterMap_append, ha, hb]
  | withNs q g ih => exact ih (p ++ q) em em'
  | ref g ih => exact ih p em em'

/-- The type declarations a pass writes do not depend on the
blank-separator state. -/
theorem typDecls_emitLines (g : Group) (p : String) (em em' : Bool) :
    typDecls (emitLines g p em) = typDecls (emitLines g p em') := by
  induction g generalizing p em em' with
  | metric m =>
      cases em <;> cases em' <;> simp [emitLines, typDecls]
  | composed a b iha ihb =>
      have ha := iha p em em'
      have hb := ihb p (em && (emitLines a p em).isEmpty)
        (em' && (emitLines a p em').isEmpty)
      simp only [typDecls] at ha hb ⊢
      simp only [emitLines, List.filterMap_append, ha, hb]
  | withNs q g ih => exact ih (p ++ q) em em'
  | ref g ih => exact ih p em em'

/-! ### Text rendering and the worked fixture -/

/-- Modelled from the spec (§6): label key/value pairs are rendered as
`key="value"` joined by commas, in the label group's declaration order. -/
def renderLabels (ls : List (String × String)) : String :=
  String.intercalate "," (ls.map fun kv => kv.1 ++ "=\"" ++ kv.2 ++ "\"")

/-- Modelled from the spec (§6 wire format): the text of one line. -/
def Line.renderText : Line → String
  | .help n h => "# HELP " ++ n ++ " " ++ h ++ "\n"
  | .typ n t => "# TYPE " ++ n ++ " " ++ t ++ "\n"
  | .value n [] v => n ++ " " ++ toString v ++ "\n"
  | .value n ls v => n ++ "\x7b" ++ renderLabels ls ++ "\x7d " ++ toString v ++ "\n"
  | .blank => "\n"

/-- Modelled from the spec: `TextEncoder::finish` returns the full
exposition text accumulated so far. -/
def Enc.finish (e : Enc) : String :=
  String.join (e.buf.map Line.renderText)

/-- The six fixed route strings of the worked fixture (spec §8,
`tests::http_errors`). -/
def fixtureRoutes : List String :=
  ["/api/v1/users", "/api/v1/users/:id", "/api/v1/products",
   "/api/v1/products/:id", "/api/v1/products/:id/owner",
   "/api/v1/products/:id/purchase"]

/-- The three error kinds of the worked fixture, in declaration order,
rendered lowercase by the label collaborator (spec §8). -/
def fixtureKinds : List String :=
  ["user", "internal", "network"]

/-- The 18 label combinations of the `errors` counter vector, kind-major /
route-minor, each with stored value 0 (spec §8). -/
def errorsSeries : List (List (String × String) × Nat) :=
  (fixtureKinds.map fun k =>
    fixtureRoutes.map fun r => ([("kind", k), ("route", r)], 0)).flatten

/-- Modelled from the spec: the derive-generated `MetricGroup` for the
fixture's `MyHttpMetrics` (a counter vector `errors` with help
"more help wow"). -/
def myHttpMetrics : Group :=
  .metric { mname := "errors", mhelp := "more help wow", mtyp := "counter",
            series := errorsSeries }

/-- Modelled from the spec: the derive-generated `MetricGroup` for the
fixture's `MyMetrics`: an unlabelled counter `events_total` (value 0,
help "help text") composed with the `http_request`-namespaced sub-group.
The `_` separator is part of the prefix string supplied by the
derive-level naming convention, not inserted by the core (spec §3, §6,
§9). -/
def myMetrics : Group :=
  .composed
    (.metric { mname := "events_total", mhelp := "help text",
               mtyp := "counter", series := [([], 0)] })
    (.withNs "http_request_" myHttpMetrics)

/-- The exact expected exposition text of the worked fixture
(`tests::http_errors`, `group.rs` lines 186-210). -/
def expectedHttpErrors : String :=
  "# HELP events_total help text\n" ++
  "# TYPE events_total counter\n" ++
  "events_total 0\n" ++
  "\n" ++
  "# HELP http_request_errors more help wow\n" ++
  "# TYPE http_request_errors counter\n" ++
  "http_request_errors\x7bkind=\"user\",route=\"/api/v1/users\"\x7d 0\n" ++
  "http_request_errors\x7bkind=\"user\",route=\"/api/v1/users/:id\"\x7d 0\n" ++
  "http_request_errors\x7bkind=\"user\",route=\"/api/v1/products\"\x7d 0\n" ++
  "http_request_errors\x7bkind=\"user\",route=\"/api/v1/products/:id\"\x7d 0\n" ++
  "http_request_errors\x7bkind=\"user\",route=\"/api/v1/products/:id/owner\"\x7d 0\n" ++
  "http_request_errors\x7bkind=\"user\",route=\"/api/v1/products/:id/purchase\"\x7d 0\n" ++
  "http_request_errors\x7bkind=\"internal\",route=\"/api/v1/users\"\x7d 0\n" ++
  "http_request_errors\x7bkind=\"internal\",route=\"/api/v1/users/:id\"\x7d 0\n" ++
  "http_request_errors\x7bkind=\"internal\",route=\"/api/v1/products\"\x7d 0\n" ++
  "http_request_errors\x7bkind=\"internal\",route=\"/api/v1/products/:id\"\x7d 0\n" ++
  "http_request_errors\x7bkind=\"internal\",route=\"/api/v1/products/:id/owner\"\x7d 0\n" ++
  "http_request_errors\x7bkind=\"internal\",route=\"/api/v1/products/:id/purchase\"\x7d 0\n" ++
  "http_request_errors\x7bkind=\"network\",route=\"/api/v1/users\"\x7d 0\n" ++
  "http_request_errors\x7bkind=\"network\",route=\"/api/v1/users/:id\"\x7d 0\n" ++
  "http_request_errors\x7bkind=\"network\",route=\"/api/v1/products\"\x7d 0\n" ++
  "http_request_errors\x7bkind=\"network\",route=\"/api/v1/products/:id\"\x7d 0\n" ++
  "http_request_errors\x7bkind=\"network\",route=\"/api/v1/products/:id/owner\"\x7d 0\n" ++
  "http_request_errors\x7bkind=\"network\",route=\"/api/v1/products/:id/purchase\"\x7d 0\n"

/-! ### Counting lines per metric name -/

/-- How many HELP lines in `ls` carry the metric name `nm`. -/
def countHelpFor (nm : String) (ls : List Line) : Nat :=
  ls.countP fun l => match l with
    | .help n _ => n == nm
    | _ => false

/-- How many TYPE lines in `ls` carry the metric name `nm`. -/
def countTypFor (nm : String) (ls : List Line) : Nat :=
  ls.countP fun l => match l with
    | .typ n _ => n == nm
    | _ => false

/-- How many value lines in `ls` carry the metric name `nm`. -/
def countValueFor (nm : String) (ls : List Line) : Nat :=
  ls.countP fun l => match l with
    | .value n _ _ => n == nm
    | _ => false

theorem countHelpFor_values (nm n : String)
    (series : List (List (String × String) × Nat)) :
    countHelpFor nm (series.map fun sv => Line.value n sv.1 sv.2) = 0 := by
  induction series with
  | nil => rfl
  | cons sv rest ih => simp [countHelpFor, List.countP_cons, ih]

theorem countTypFor_values (nm n : String)
    (series : List (List (String × String) × Nat)) :
    countTypFor nm (series.map fun sv => Line.value n sv.1 sv.2) = 0 := by
  induction series with
  | nil => rfl
  | cons sv rest ih => simp [countTypFor, List.countP_cons, ih]

theorem countValueFor_values (nm : String)
    (series : List (List (String × String) × Nat)) :
    countValueFor nm (series.map fun sv => Line.value nm sv.1 sv.2) =
      series.length := by
  induction series with
  | nil => rfl
  | cons sv rest ih => simp [countValueFor, List.countP_cons, ih]

/-! ### State-threaded traversal

`MetricGroup::collect_into` takes the group by shared reference
(`&self`, `group.rs` line 20).  To state that a pass cannot mutate the
tree we embed the traversal once more with the group threaded through as
state, exactly mirroring `Group.collect_into`, and prove the group
component is returned unchanged. -/

/-- `collect_into` with the group threaded through as explicit state. -/
def Group.collect_into_st : Group → Enc → Group × Enc
  | .ref g, e =>
      let r := g.collect_into_st e
      (.ref r.1, r.2)
  | .composed a b, e =>
      let ra := a.collect_into_st e
      let rb := b.collect_into_st ra.2
      (.composed ra.1 rb.1, rb.2)
  | .withNs p g, e =>
      let r := g.collect_into_st (.withNs p (.mutRef e))
      (.withNs p r.1, r.2.unwrapNsRef)
  | .metric m, e =>
      (.metric m,
        m.series.foldl (fun acc sv => acc.write_value (.base m.mname) sv.1 sv.2)
          ((e.write_help (.base m.mname) m.mhelp).write_type (.base m.mname) m.mtyp))

theorem collect_into_st_eq (g : Group) (e : Enc) :
    g.collect_into_st e = (g, g.collect_into e) := by
  induction g generalizing e with
  | metric m => rfl
  | composed a b iha ihb =>
      simp [Group.collect_into_st, Group.collect_into, iha, ihb]
  | withNs p g ih =>
      simp [Group.collect_into_st, Group.collect_into, ih]
  | ref g ih =>
      simp [Group.collect_into_st, Group.collect_into, ih]

/-! ### The claims -/

/-- C1: Namespace transparency.  For every group `G` and prefix `P`,
rendering `WithNamespace(P, G)` yields exactly the output of rendering
`G` directly with every emitted metric name given the prefix `P` once
(`Line.prependNs` touches only names: help text, type keywords, labels
and values are unchanged, blank lines stay blank); and nesting
`WithNamespace(P₂, WithNamespace(P₁, G))` renders, into any target,
identically to the single combined prefix `P₂ ++ P₁`, concatenated
verbatim with no separator. -/
theorem namespace_transparency :
    (∀ (g : Group) (P : String),
       Group.collect_into (.withNs P g) (.base []) =
         .base ((Group.collect_into g (.base [])).buf.map (Line.prependNs P)))
  ∧ (∀ (g : Group) (P₂ P₁ : String) (e : Enc),
       Group.collect_into (.withNs P₂ (.withNs P₁ g)) e =
         Group.collect_into (.withNs (P₂ ++ P₁) g) e) := by
  constructor
  · intro g P
    rw [Group.collect_into_eq, Group.collect_into_eq]
    have h := runGroup_map g P "" ([] : List Line)
    simp only [List.map_nil, str_append_empty] at h
    simp [Enc.setBuf, Enc.nsAcc, Enc.buf, runGroup, h]
  · intro g P₂ P₁ e
    rw [Group.collect_into_eq, Group.collect_into_eq]
    simp [runGroup, str_assoc]

/-- C2: Associativity of composition.  For all groups `A`, `B`, `C` and
any encoding target, rendering `ComposedGroup(ComposedGroup(A, B), C)`
produces output identical to rendering
`ComposedGroup(A, ComposedGroup(B, C))`: both traversals are the same
sequence of `collect_into` calls on the same target. -/
theorem composed_associativity (a b c : Group) (e : Enc) :
    Group.collect_into (.composed (.composed a b) c) e =
      Group.collect_into (.composed a (.composed b c)) e := rfl

/-- C3: Order preservation.  Rendering `ComposedGroup(A, B)` into a
target is exactly calling `A`'s `collect_into` then `B`'s `collect_into`
on the same target, in that fixed order; so on an initially-empty target
the output is the output of rendering `A` followed by the output
rendering `B` then appends. -/
theorem composed_order_preservation (a b : Group) (e : Enc) :
    Group.collect_into (.composed a b) e =
      Group.collect_into b (Group.collect_into a e) := rfl

/-- C4: Reference transparency.  Rendering a shared reference `&G`
yields output identical to rendering `G` by value, and the `Encoding`
capability of a target `E` is available for `&mut E` with every call
forwarded unchanged: writing help through the borrowed handle is the
forwarded write on `E`, and a full collection pass through the borrowed
handle is the pass on `E` itself. -/
theorem reference_transparency :
    (∀ (g : Group) (e : Enc),
       Group.collect_into (.ref g) e = Group.collect_into g e)
  ∧ (∀ (e : Enc) (n : Name) (h : String),
       Enc.write_help (.mutRef e) n h = .mutRef (e.write_help n h))
  ∧ (∀ (g : Group) (e : Enc),
       Group.collect_into g (.mutRef e) = .mutRef (Group.collect_into g e)) := by
  refine ⟨fun g e => rfl, fun e n h => rfl, fun g e => ?_⟩
  rw [Group.collect_into_eq, Group.collect_into_eq]
  simp [Enc.nsAcc, Enc.buf, Enc.setBuf]

/-- C5: The two `MetricEncoding` forwarding rules commute.  Writing a
metric's type declaration or value line through
`WithNamespace<&mut E>` and through `&mut WithNamespace<E>` both forward
to the identical inner operation on `E` (name wrapped in the namespace,
everything else unchanged), so the two orders of applying the forwarding
rules leave identical base output. -/
theorem forwarding_rules_commute (e : Enc) (n : Name) (p t : String)
    (ls : List (String × String)) (v : Nat) :
    (Enc.write_type (.withNs p (.mutRef e)) n t =
        .withNs p (.mutRef (e.write_type (.nsWrap p n) t))
      ∧ Enc.write_type (.mutRef (.withNs p e)) n t =
        .mutRef (.withNs p (e.write_type (.nsWrap p n) t))
      ∧ (Enc.write_type (.withNs p (.mutRef e)) n t).buf =
        (Enc.write_type (.mutRef (.withNs p e)) n t).buf)
  ∧ (Enc.write_value (.withNs p (.mutRef e)) n ls v =
        .withNs p (.mutRef (e.write_value (.nsWrap p n) ls v))
      ∧ Enc.write_value (.mutRef (.withNs p e)) n ls v =
        .mutRef (.withNs p (e.write_value (.nsWrap p n) ls v))
      ∧ (Enc.write_value (.withNs p (.mutRef e)) n ls v).buf =
        (Enc.write_value (.mutRef (.withNs p e)) n ls v).buf) := by
  refine ⟨⟨rfl, rfl, ?_⟩, rfl, rfl, ?_⟩
  · simp [Enc.write_type, Enc.buf]
  · simp [Enc.write_value, Enc.buf]

/-- C6: Type-line uniqueness.  One collection pass over a labelled
metric with `N` stored label combinations emits exactly one HELP line
and exactly one TYPE line for the metric's name, followed by exactly
`N = m.series.length` value lines, with the HELP/TYPE pair before all
value lines. -/
theorem type_line_uniqueness (m : Metric) :
    (Group.collect_into (.metric m) (.base [])).buf =
        Line.help m.mname m.mhelp :: Line.typ m.mname m.mtyp ::
          m.series.map (fun sv => Line.value m.mname sv.1 sv.2)
  ∧ countHelpFor m.mname (Group.collect_into (.metric m) (.base [])).buf = 1
  ∧ countTypFor m.mname (Group.collect_into (.metric m) (.base [])).buf = 1
  ∧ countValueFor m.mname (Group.collect_into (.metric m) (.base [])).buf =
      m.series.length := by
  have hbuf : (Group.collect_into (.metric m) (.base [])).buf =
      Line.help m.mname m.mhelp :: Line.typ m.mname m.mtyp ::
        m.series.map (fun sv => Line.value m.mname sv.1 sv.2) := by
    rw [Group.collect_into_eq]
    simp [Enc.buf, Enc.nsAcc, Enc.setBuf, runGroup_metric]
  refine ⟨hbuf, ?_, ?_, ?_⟩ <;> rw [hbuf]
  · have h0 := countHelpFor_values m.mname m.mname m.series
    simp only [countHelpFor] at h0 ⊢
    simp [List.countP_cons, h0]
  · have h0 := countTypFor_values m.mname m.mname m.series
    simp only [countTypFor] at h0 ⊢
    simp [List.countP_cons, h0]
  · have h0 := countValueFor_values m.mname m.series
    simp only [countValueFor] at h0 ⊢
    simp [List.countP_cons, h0]

/-- C7: End-to-end worked fixture (`tests::http_errors`).  The group
with the unlabelled counter `events_total` (value 0, help "help text")
composed with the `http_request`-namespaced sub-group holding the
`errors` counter vector over 3 kinds × 6 routes renders exactly the
expected exposition text: one HELP/TYPE block and `events_total 0`, a
blank line, then one HELP/TYPE block for `http_request_errors` with 18
zero-valued lines in kind-major / route-minor order, labels rendered
`kind="..."` then `route="..."`. -/
theorem http_errors_fixture :
    Enc.finish (Group.collect_into myMetrics (.base [])) = expectedHttpErrors := by
  rfl

/-- C8: Repeatability and determinism.  A collection pass starting from
any already-written buffer `s` (so after any number of earlier passes)
appends `emitLines g "" s.isEmpty` — a function only of the static
tree shape (left-to-right through `composed` nodes) and of the single
blank-separator bit — and the sequence of metric names and of type
declarations it writes is identical to the one the first pass (empty
buffer) writes. -/
theorem repeatable_deterministic_collection (g : Group) (s : List Line) :
    (Group.collect_into g (.base s)).buf = s ++ emitLines g "" s.isEmpty
  ∧ namesOf (emitLines g "" s.isEmpty) = namesOf (emitLines g "" true)
  ∧ typDecls (emitLines g "" s.isEmpty) = typDecls (emitLines g "" true) := by
  refine ⟨?_, namesOf_emitLines g "" s.isEmpty true,
    typDecls_emitLines g "" s.isEmpty true⟩
  rw [Group.collect_into_eq]
  simp [Enc.buf, Enc.nsAcc, Enc.setBuf, runGroup_emit]

/-- C9: Frame property of the forwarding layers.  Writing help, a type
declaration or a value line through an arbitrary stack of namespace
decorators and borrowed handles reaches the base encoder with the help
text, the type keyword, the label pairs and the stored value unchanged;
the only rewriting any layer performs is prepending the stack's
accumulated namespace to the rendered name. -/
theorem frame_only_names_rewritten (e : Enc) (n : Name) (h t : String)
    (ls : List (String × String)) (v : Nat) :
    Enc.write_help e n h =
        e.setBuf (bufWriteHelp e.buf (e.nsAcc ++ n.render) h)
  ∧ Enc.write_type e n t =
        e.setBuf (bufWriteType e.buf (e.nsAcc ++ n.render) t)
  ∧ Enc.write_value e n ls v =
        e.setBuf (bufWriteValue e.buf (e.nsAcc ++ n.render) ls v) :=
  ⟨Enc.write_help_eq e n h, Enc.write_type_eq e n t, Enc.write_value_eq e n ls v⟩

/-- C10: A collection pass never mutates the metric tree.  Threading the
group through the traversal as explicit state (`Group.collect_into_st`,
mirroring the `&self` shared borrow of `collect_into`) returns the tree
— shape, namespace prefixes and composition structure — exactly as it
was, while the encoding target is the only thing updated. -/
theorem collection_never_mutates_tree (g : Group) (e : Enc) :
    (Group.collect_into_st g e).1 = g
  ∧ (Group.collect_into_st g e).2 = Group.collect_into g e := by
  rw [collect_into_st_eq]
  exact ⟨rfl, rfl⟩

end Measured
